import Mathlib

/- Verification development for the amulet charm module (charm.py): the
relation/metadata Builder, the hook symlink wiring, the get_relation lookup,
and the get_charm / LocalCharm resolution logic. The document codec, the
bzr checkpoint log and the charm registry are external collaborators of the
source module; they appear here only through the state they touch. -/

set_option maxHeartbeats 1000000

/-- YAML-style document values: strings, booleans and nested mappings.
The document codec is an external collaborator of charm.py, so files carry
decoded values directly. Mappings are association lists in insertion order,
mirroring Python dict iteration order. -/
inductive Val
| vStr (s : String)
| vBool (b : Bool)
| vDict (entries : List (String × Val))

/-- First-match lookup in an association list (Python dict indexing). -/
def alGet {κ α : Type} [DecidableEq κ] : List (κ × α) → κ → Option α
| [], _ => none
| (k1, v) :: rest, k => if k1 = k then some v else alGet rest k

/-- Update-or-append (Python dict assignment: an existing key keeps its
position and receives the new value, a new key is appended). -/
def alSet {κ α : Type} [DecidableEq κ] : List (κ × α) → κ → α → List (κ × α)
| [], k, v => [(k, v)]
| (k1, v1) :: rest, k, v =>
    if k1 = k then (k, v) :: rest else (k1, v1) :: alSet rest k v

/-- Number of entries carrying a given key. -/
def alCount {κ α : Type} [DecidableEq κ] (l : List (κ × α)) (k : κ) : Nat :=
  (l.filter (fun p => p.1 == k)).length

/-- Keys are pairwise distinct (every Python dict satisfies this). -/
def alNodup {κ α : Type} [DecidableEq κ] : List (κ × α) → Bool
| [] => true
| (k, _) :: rest => !(rest.any (fun p => p.1 == k)) && alNodup rest

theorem alGet_alSet_self {κ α : Type} [DecidableEq κ] (l : List (κ × α)) (k : κ) (v : α) :
    alGet (alSet l k v) k = some v := by
  induction l with
  | nil => simp [alSet, alGet]
  | cons p rest ih =>
      obtain ⟨k1, v1⟩ := p
      by_cases h : k1 = k
      · simp [alSet, alGet, h]
      · simp [alSet, alGet, h, ih]

theorem alGet_alSet_ne {κ α : Type} [DecidableEq κ] (l : List (κ × α)) (k k2 : κ) (v : α)
    (h : k2 ≠ k) : alGet (alSet l k v) k2 = alGet l k2 := by
  induction l with
  | nil => simp [alSet, alGet, Ne.symm h]
  | cons p rest ih =>
      obtain ⟨k1, v1⟩ := p
      by_cases h1 : k1 = k
      · subst h1
        simp only [alSet, if_pos rfl]
        simp [alGet, Ne.symm h]
      · simp only [alSet, if_neg h1]
        by_cases h2 : k1 = k2
        · simp [alGet, h2]
        · simp [alGet, h2, ih]

theorem alGet_eq_none_of_any_eq_false {κ α : Type} [DecidableEq κ]
    (l : List (κ × α)) (k : κ) (h : l.any (fun p => p.1 == k) = false) :
    alGet l k = none := by
  induction l with
  | nil => rfl
  | cons p rest ih =>
      obtain ⟨k1, v1⟩ := p
      simp only [List.any_cons, Bool.or_eq_false_iff, beq_eq_false_iff_ne] at h
      simp [alGet, h.1, ih h.2]

theorem alCount_eq_zero_of_any_eq_false {κ α : Type} [DecidableEq κ]
    (l : List (κ × α)) (k : κ) (h : l.any (fun p => p.1 == k) = false) :
    alCount l k = 0 := by
  unfold alCount
  rw [List.length_eq_zero, List.filter_eq_nil_iff]
  intro p hp
  simp only [List.any_eq_false] at h
  simpa using h p hp

theorem alCount_alSet_of_nodup {κ α : Type} [DecidableEq κ]
    (l : List (κ × α)) (k : κ) (v : α) (h : alNodup l = true) :
    alCount (alSet l k v) k = 1 := by
  induction l with
  | nil => simp [alSet, alCount]
  | cons p rest ih =>
      obtain ⟨k1, v1⟩ := p
      simp only [alNodup, Bool.and_eq_true, Bool.not_eq_true'] at h
      obtain ⟨hany, hrest⟩ := h
      by_cases h1 : k1 = k
      · subst h1
        have hz : alCount rest k1 = 0 := alCount_eq_zero_of_any_eq_false rest k1 hany
        unfold alCount at hz ⊢
        simp only [alSet, if_pos rfl, List.filter_cons, beq_self_eq_true, if_true,
          List.length_cons, hz]
      · have hc := ih hrest
        unfold alCount at hc ⊢
        simp only [alSet, if_neg h1, List.filter_cons]
        have : (k1 == k) = false := by simpa using h1
        simp [this, hc]

theorem any_alSet_ne {κ α : Type} [DecidableEq κ]
    (l : List (κ × α)) (k k1 : κ) (v : α) (h : k ≠ k1) :
    ((alSet l k v).any (fun p => p.1 == k1)) = l.any (fun p => p.1 == k1) := by
  induction l with
  | nil =>
      have : (k == k1) = false := by simpa using h
      simp [alSet, this]
  | cons q rest ih =>
      obtain ⟨kq, vq⟩ := q
      by_cases hq : kq = k
      · subst hq
        have : (kq == k1) = false := by simpa using h
        simp [alSet, this]
      · simp [alSet, hq, ih]

theorem alNodup_alSet {κ α : Type} [DecidableEq κ]
    (l : List (κ × α)) (k : κ) (v : α) (h : alNodup l = true) :
    alNodup (alSet l k v) = true := by
  induction l with
  | nil => simp [alSet, alNodup]
  | cons p rest ih =>
      obtain ⟨k1, v1⟩ := p
      simp only [alNodup, Bool.and_eq_true, Bool.not_eq_true'] at h
      by_cases h1 : k1 = k
      · subst h1
        simp [alSet, alNodup, h.1, h.2]
      · have := ih h.2
        simp [alSet, alNodup, h1, this, any_alSet_ne rest k k1 v (fun he => h1 he.symm), h.1]

theorem alGet_isSome_of_any {κ α : Type} [DecidableEq κ]
    (l : List (κ × α)) (k : κ) (h : l.any (fun p => p.1 == k) = true) :
    ∃ v, alGet l k = some v ∧ (k, v) ∈ l := by
  induction l with
  | nil => simp at h
  | cons p rest ih =>
      obtain ⟨k1, v1⟩ := p
      by_cases h1 : k1 = k
      · subst h1
        exact ⟨v1, by simp [alGet], by simp⟩
      · simp only [List.any_cons, Bool.or_eq_true, beq_iff_eq] at h
        rcases h with h | h
        · exact absurd h h1
        · obtain ⟨v, hv, hm⟩ := ih h
          exact ⟨v, by simp [alGet, h1, hv], by simp [hm]⟩

/-- Entry of the hooks directory of the working tree: a regular file or a
symbolic link to the named target. Link targets are resolved inside the same
directory, matching the relative links the builder writes. -/
inductive HookEntry
| file
| symlink (target : String)

/-- Contents of the hooks subdirectory, keyed by filename. -/
abbrev HooksDir := List (String × HookEntry)

/-- Bounded symlink-chain resolution. os.path.exists follows symbolic links
and reports false for missing names, dangling links and link loops; the fuel
bound length + 1 forces any chain longer than the directory to revisit an
entry, which is exactly a loop. -/
def hookExists (hooks : HooksDir) : Nat → String → Bool
| 0, _ => false
| fuel + 1, name =>
    match alGet hooks name with
    | none => false
    | some HookEntry.file => true
    | some (HookEntry.symlink t) => hookExists hooks fuel t

/-- os.path.exists for a name inside the hooks directory. -/
def pathExistsHooks (hooks : HooksDir) (name : String) : Bool :=
  hookExists hooks (hooks.length + 1) name

/-- Errors of the embedded operations, named after the Python exceptions
they translate (spec taxonomy in parentheses):
fileExists is FileExistsError from os.symlink over an existing link name;
typeErr is TypeError from indexing a non-dict metadata value;
notFound is the exception raised when metadata.yaml is absent (NotFoundError);
invalidTemplate is IOError for a missing template (InvalidTemplateError);
fileNotFound is FileNotFoundError from shutil.rmtree or os.chmod on a missing
target; parseError is the failure of metadata.items() on a non-mapping
document. -/
inductive Err
| fileExists (name : String)
| typeErr
| notFound
| invalidTemplate
| fileNotFound
| parseError

/-- The four relation lifecycle events wired by Builder._add_relation. -/
def relEvents : List String := ["joined", "changed", "departed", "broken"]

/-- Loop of Builder._add_relation lines 84..89: for each event, when
os.path.exists on the hook filename is false the symlink to the configured
hook is created; a name that is present but does not resolve (a dangling
link) makes os.symlink raise FileExistsError, which aborts the loop. -/
def linkEvents (hook relation : String) : HooksDir → List String → HooksDir × Option Err
| hooks, [] => (hooks, none)
| hooks, event :: rest =>
    let hook_file := relation ++ "-relation-" ++ event
    if pathExistsHooks hooks hook_file then linkEvents hook relation hooks rest
    else if (alGet hooks hook_file).isSome then (hooks, some (Err.fileExists hook_file))
    else linkEvents hook relation (alSet hooks hook_file (HookEntry.symlink hook)) rest

/-- Builder state: the in-memory metadata document (write_metadata serializes
it verbatim after every declaration, so it is the metadata document), the
configured lifecycle hook filename (the empty string stands for a falsy
hook), and the contents of the hooks subdirectory of the working tree.
Checkpointing (save) only invokes the external bzr collaborator and changes
none of this state. -/
structure Builder where
  metadata : List (String × Val)
  hook : String
  hooks : HooksDir

/-- Builder._add_relation: ensure the relation table exists, bind the
relation name to the options dict (last write wins), then wire the four
lifecycle hook symlinks, skipping names for which os.path.exists is true.
The returned builder keeps every mutation performed before a raised
FileExistsError, exactly as the Python object does. -/
def Builder.add_relation (b : Builder) (rel_type relation : String)
    (opts : List (String × Val)) : Builder × Option Err :=
  let md0 := if (alGet b.metadata rel_type).isSome then b.metadata
             else alSet b.metadata rel_type (Val.vDict [])
  match alGet md0 rel_type with
  | some (Val.vDict t) =>
      let md1 := alSet md0 rel_type (Val.vDict (alSet t relation (Val.vDict opts)))
      if b.hook = "" then ({ b with metadata := md1 }, none)
      else
        let r := linkEvents b.hook relation b.hooks relEvents
        ({ b with metadata := md1, hooks := r.1 }, r.2)
  | _ => (b, some Err.typeErr)

/-- Builder.require: the opts argument (None and the empty dict both
normalize to the empty list at this value level) receives the interface key,
then the shared declaration step runs on the requires table. -/
def Builder.require (b : Builder) (relation interface : String)
    (opts : List (String × Val)) : Builder × Option Err :=
  Builder.add_relation b "requires" relation (alSet opts "interface" (Val.vStr interface))

/-- Builder.provide: same as require, on the provides table. -/
def Builder.provide (b : Builder) (relation interface : String)
    (opts : List (String × Val)) : Builder × Option Err :=
  Builder.add_relation b "provides" relation (alSet opts "interface" (Val.vStr interface))

/-- Builder.peer: same as require, on the peers table. -/
def Builder.peer (b : Builder) (relation interface : String)
    (opts : List (String × Val)) : Builder × Option Err :=
  Builder.add_relation b "peers" relation (alSet opts "interface" (Val.vStr interface))

/-- Default metadata document of Builder.__init__ lines 33..37. -/
def initMetadata (name : String) (subordinate : Bool) : List (String × Val) :=
  [("name", Val.vStr name),
   ("summary", Val.vStr "Generated by Amulet"),
   ("description", Val.vStr "Generated by Amulet"),
   ("subordinate", Val.vBool subordinate),
   ("maintainer", Val.vStr "Amulet Built <juju@lists.ubuntu.com>")]

/-- Builder.__init__ lines 32..57 at the working-tree level: the template
directory must exist (else IOError), the hooks subdirectory of the copied
template becomes the working-tree hooks directory (mkdtemp, copytree, the
chmod permission bits and bzr initialization touch nothing this state
tracks), the default metadata document is set up, a subordinate charm
immediately requires juju-info with scope container, and finally os.chmod of
the configured (truthy) hook raises FileNotFoundError unless the name
resolves inside hooks. -/
def builder_init (templateExists : Bool) (templateHooks : HooksDir)
    (name : String) (subordinate : Bool) (hook : String) : Except Err Builder :=
  if templateExists = false then Except.error Err.invalidTemplate
  else
    let b0 : Builder := { metadata := initMetadata name subordinate,
                          hook := hook, hooks := templateHooks }
    let r := if subordinate then
               Builder.require b0 "juju-info" "juju-info" [("scope", Val.vStr "container")]
             else (b0, none)
    match r.2 with
    | some e => Except.error e
    | none =>
        if r.1.hook = "" then Except.ok r.1
        else if pathExistsHooks r.1.hooks r.1.hook then Except.ok r.1
        else Except.error Err.fileNotFound

/-- The named relation table, when present, is a mapping with pairwise
distinct keys (always true of a Python dict; vacuously true when the table
is absent). -/
def tableKeysOK (md : List (String × Val)) (tbl : String) : Bool :=
  match alGet md tbl with
  | none => true
  | some (Val.vDict t) => alNodup t
  | some _ => false

/-- The named relation table of a metadata document, defaulting to the
empty table. -/
def preTable (md : List (String × Val)) (tbl : String) : List (String × Val) :=
  match alGet md tbl with
  | some (Val.vDict t) => t
  | _ => []

theorem preTable_nodup (md : List (String × Val)) (tbl : String)
    (h : tableKeysOK md tbl = true) : alNodup (preTable md tbl) = true := by
  unfold tableKeysOK at h
  unfold preTable
  cases hmd : alGet md tbl with
  | none => rfl
  | some v =>
      cases v with
      | vStr s => rw [hmd] at h; exact absurd h (by simp)
      | vBool b => rw [hmd] at h; exact absurd h (by simp)
      | vDict t => rw [hmd] at h; exact h

theorem add_relation_table_eq (b : Builder) (rel_type relation : String)
    (opts : List (String × Val)) (h : tableKeysOK b.metadata rel_type = true) :
    alGet ((Builder.add_relation b rel_type relation opts).1.metadata) rel_type
      = some (Val.vDict (alSet (preTable b.metadata rel_type) relation (Val.vDict opts))) := by
  unfold tableKeysOK at h
  unfold Builder.add_relation preTable
  cases hmd : alGet b.metadata rel_type with
  | none =>
      simp only [hmd, Option.isSome_none, Bool.false_eq_true, if_false,
        alGet_alSet_self]
      by_cases hh : b.hook = "" <;> simp [hh, alGet_alSet_self]
  | some v =>
      rw [hmd] at h
      cases v with
      | vStr s => exact absurd h (by simp)
      | vBool bb => exact absurd h (by simp)
      | vDict t =>
          simp only [hmd, Option.isSome_some, if_true]
          by_cases hh : b.hook = "" <;> simp [hh, alGet_alSet_self]

theorem add_relation_keysOK (b : Builder) (rel_type relation : String)
    (opts : List (String × Val)) (h : tableKeysOK b.metadata rel_type = true) :
    tableKeysOK ((Builder.add_relation b rel_type relation opts).1.metadata) rel_type = true := by
  unfold tableKeysOK
  rw [add_relation_table_eq b rel_type relation opts h]
  exact alNodup_alSet _ _ _ (preTable_nodup b.metadata rel_type h)

/-- C1, one declaration operation: after declaring relation r with
interface i and options o on the table named tbl, that table holds exactly
one entry for r, the entry has interface i, its other fields are exactly the
passed options, and a second declaration of r replaces the entry entirely
with the new options (last write wins, no merge). -/
def declSpec (f : Builder → String → String → List (String × Val) → Builder × Option Err)
    (tbl : String) : Prop :=
  ∀ (b : Builder) (r i : String) (o : List (String × Val)),
    tableKeysOK b.metadata tbl = true →
    (∃ t e, alGet ((f b r i o).1.metadata) tbl = some (Val.vDict t)
        ∧ alCount t r = 1
        ∧ alGet t r = some (Val.vDict e)
        ∧ alGet e "interface" = some (Val.vStr i)
        ∧ (∀ k, k ≠ "interface" → alGet e k = alGet o k))
    ∧ (∀ (i2 : String) (o2 : List (String × Val)),
        ∃ t2, alGet ((f ((f b r i o).1) r i2 o2).1.metadata) tbl = some (Val.vDict t2)
          ∧ alCount t2 r = 1
          ∧ alGet t2 r = some (Val.vDict (alSet o2 "interface" (Val.vStr i2))))

theorem declSpec_add_relation (tbl : String) :
    declSpec (fun b r i o => Builder.add_relation b tbl r (alSet o "interface" (Val.vStr i))) tbl := by
  intro b r i o h
  constructor
  · refine ⟨alSet (preTable b.metadata tbl) r (Val.vDict (alSet o "interface" (Val.vStr i))),
      alSet o "interface" (Val.vStr i), ?_, ?_, ?_, ?_, ?_⟩
    · exact add_relation_table_eq b tbl r _ h
    · exact alCount_alSet_of_nodup _ _ _ (preTable_nodup b.metadata tbl h)
    · exact alGet_alSet_self _ _ _
    · exact alGet_alSet_self _ _ _
    · intro k hk
      exact alGet_alSet_ne _ _ _ _ hk
  · intro i2 o2
    have h2 := add_relation_keysOK b tbl r (alSet o "interface" (Val.vStr i)) h
    refine ⟨alSet (preTable (Builder.add_relation b tbl r
        (alSet o "interface" (Val.vStr i))).1.metadata tbl) r
        (Val.vDict (alSet o2 "interface" (Val.vStr i2))), ?_, ?_, ?_⟩
    · exact add_relation_table_eq _ tbl r _ h2
    · exact alCount_alSet_of_nodup _ _ _ (preTable_nodup _ tbl h2)
    · exact alGet_alSet_self _ _ _

/-- C1: for every relation name, interface string and options map, require,
provide and peer leave the corresponding table (requires, provides, peers)
with exactly one entry for the declared name, whose interface field equals
the given interface and whose other fields are exactly the passed options;
re-declaring the same name in the same table replaces the prior entry
entirely (last write wins, no merge). -/
theorem amulet_c1 :
    declSpec Builder.require "requires"
      ∧ declSpec Builder.provide "provides"
      ∧ declSpec Builder.peer "peers" :=
  ⟨declSpec_add_relation "requires", declSpec_add_relation "provides",
    declSpec_add_relation "peers"⟩

/-- Concrete builder used to witness C1: fresh metadata, falsy hook. -/
def c1builder : Builder := { metadata := [("name", Val.vStr "wp")], hook := "", hooks := [] }

/-- Witness for C1 at a concrete input. -/
theorem amulet_c1_witness :
    tableKeysOK c1builder.metadata "requires" = true
    ∧ (∃ t e, alGet ((Builder.require c1builder "db" "mysql"
          [("limit", Val.vStr "2")]).1.metadata) "requires" = some (Val.vDict t)
        ∧ alCount t "db" = 1
        ∧ alGet t "db" = some (Val.vDict e)
        ∧ alGet e "interface" = some (Val.vStr "mysql")
        ∧ (∀ k, k ≠ "interface" → alGet e k = alGet [("limit", Val.vStr "2")] k)) :=
  ⟨rfl, (amulet_c1.1 c1builder "db" "mysql" [("limit", Val.vStr "2")] rfl).1⟩

theorem pathExistsHooks_eq_false_of_none (hooks : HooksDir) (n : String)
    (h : alGet hooks n = none) : pathExistsHooks hooks n = false := by
  unfold pathExistsHooks
  simp [hookExists, h]

theorem linkEvents_preserve (hook relation : String) (es : List String)
    (hooks : HooksDir) (k : String) (h : (alGet hooks k).isSome = true) :
    alGet (linkEvents hook relation hooks es).1 k = alGet hooks k := by
  induction es generalizing hooks with
  | nil => rfl
  | cons ev rest ih =>
      simp only [linkEvents]
      by_cases h1 : pathExistsHooks hooks (relation ++ "-relation-" ++ ev) = true
      · simp only [h1, if_true]
        exact ih hooks h
      · simp only [Bool.not_eq_true] at h1
        simp only [h1, Bool.false_eq_true, if_false]
        by_cases h2 : (alGet hooks (relation ++ "-relation-" ++ ev)).isSome = true
        · simp [h2]
        · simp only [Bool.not_eq_true] at h2
          simp only [h2, Bool.false_eq_true, if_false]
          have hk : k ≠ relation ++ "-relation-" ++ ev := by
            intro he
            rw [he] at h
            rw [h2] at h
            exact Bool.false_ne_true h
          have hg : alGet (alSet hooks (relation ++ "-relation-" ++ ev)
              (HookEntry.symlink hook)) k = alGet hooks k :=
            alGet_alSet_ne hooks _ k (HookEntry.symlink hook) hk
          rw [ih _ (by rw [hg]; exact h), hg]

theorem linkEvents_creates (hook relation : String) (es : List String)
    (hooks : HooksDir) (hok : (linkEvents hook relation hooks es).2 = none)
    (e : String) (he : e ∈ es)
    (habs : alGet hooks (relation ++ "-relation-" ++ e) = none) :
    alGet (linkEvents hook relation hooks es).1 (relation ++ "-relation-" ++ e)
      = some (HookEntry.symlink hook) := by
  induction es generalizing hooks with
  | nil => cases he
  | cons ev rest ih =>
      simp only [linkEvents] at hok ⊢
      by_cases h1 : pathExistsHooks hooks (relation ++ "-relation-" ++ ev) = true
      · simp only [h1, if_true] at hok ⊢
        rcases List.mem_cons.mp he with rfl | hrest
        · rw [pathExistsHooks_eq_false_of_none hooks _ habs] at h1
          exact absurd h1 Bool.false_ne_true
        · exact ih hooks hok hrest habs
      · simp only [Bool.not_eq_true] at h1
        simp only [h1, Bool.false_eq_true, if_false] at hok ⊢
        by_cases h2 : (alGet hooks (relation ++ "-relation-" ++ ev)).isSome = true
        · simp only [h2, if_true] at hok
          cases hok
        · simp only [Bool.not_eq_true] at h2
          simp only [h2, Bool.false_eq_true, if_false] at hok ⊢
          by_cases hsame : relation ++ "-relation-" ++ e = relation ++ "-relation-" ++ ev
          · rw [hsame]
            have hp : (alGet (alSet hooks (relation ++ "-relation-" ++ ev)
                (HookEntry.symlink hook)) (relation ++ "-relation-" ++ ev)).isSome = true := by
              rw [alGet_alSet_self]
              rfl
            rw [linkEvents_preserve hook relation rest _ _ hp, alGet_alSet_self]
          · rcases List.mem_cons.mp he with rfl | hrest
            · exact absurd rfl hsame
            · apply ih _ hok hrest
              rw [alGet_alSet_ne hooks _ _ _ hsame]
              exact habs

theorem add_relation_hooks_cases (b : Builder) (tbl r : String)
    (opts : List (String × Val)) (hhook : b.hook ≠ "") :
    ((Builder.add_relation b tbl r opts).1.hooks = b.hooks
        ∧ (Builder.add_relation b tbl r opts).2 = some Err.typeErr)
    ∨ ((Builder.add_relation b tbl r opts).1.hooks
          = (linkEvents b.hook r b.hooks relEvents).1
        ∧ (Builder.add_relation b tbl r opts).2
          = (linkEvents b.hook r b.hooks relEvents).2) := by
  simp only [Builder.add_relation]
  split
  · right
    simp [hhook]
  · left
    exact ⟨rfl, rfl⟩

/-- C5 (amended form), one declaration operation: when the declaration
completes without a FileExistsError from a pre-existing dangling symlink,
each of the four hook names either already existed (and is then left exactly
as it was) or now holds a symbolic link to the configured lifecycle hook. -/
def hookSpec (f : Builder → String → String → List (String × Val) → Builder × Option Err) : Prop :=
  ∀ (b : Builder) (r i : String) (o : List (String × Val)),
    b.hook ≠ "" →
    (f b r i o).2 = none →
    ∀ e, e ∈ relEvents →
      ((alGet b.hooks (r ++ "-relation-" ++ e)).isSome = true →
          alGet ((f b r i o).1.hooks) (r ++ "-relation-" ++ e)
            = alGet b.hooks (r ++ "-relation-" ++ e))
      ∧ ((alGet b.hooks (r ++ "-relation-" ++ e)).isSome = false →
          alGet ((f b r i o).1.hooks) (r ++ "-relation-" ++ e)
            = some (HookEntry.symlink b.hook))

theorem hookSpec_add_relation (tbl : String) :
    hookSpec (fun b r i o => Builder.add_relation b tbl r (alSet o "interface" (Val.vStr i))) := by
  intro b r i o hhook hok e he
  rcases add_relation_hooks_cases b tbl r (alSet o "interface" (Val.vStr i)) hhook with
    ⟨h1, h2⟩ | ⟨h1, h2⟩
  · rw [h2] at hok
    cases hok
  · rw [h2] at hok
    rw [h1]
    constructor
    · intro hs
      exact linkEvents_preserve b.hook r relEvents b.hooks _ hs
    · intro hn
      cases hga : alGet b.hooks (r ++ "-relation-" ++ e) with
      | some v => rw [hga] at hn; cases hn
      | none => exact linkEvents_creates b.hook r relEvents b.hooks hok e he hga

/-- C5 as amended: after a declaration via require, provide or peer that
completes without error, each of the four hook filenames
name-relation-joined, changed, departed, broken is a symbolic link to the
configured lifecycle hook in the hooks directory, except that a file of that
exact name that already existed is left untouched. -/
theorem amulet_c5 :
    hookSpec Builder.require ∧ hookSpec Builder.provide ∧ hookSpec Builder.peer :=
  ⟨hookSpec_add_relation "requires", hookSpec_add_relation "provides",
    hookSpec_add_relation "peers"⟩

/-- Builder whose hooks directory holds a dangling symbolic link at one of
the four hook names. os.path.exists follows links, so the source sees the
name as non-existing and os.symlink then raises FileExistsError. -/
def c5builder : Builder :=
  { metadata := [("name", Val.vStr "wp")], hook := "hooks.py",
    hooks := [("hooks.py", HookEntry.file),
              ("db-relation-joined", HookEntry.symlink "missing")] }

/-- Counterexample to C5 as stated: with a pre-existing dangling symlink at
db-relation-joined, the declaration aborts with FileExistsError and
db-relation-broken, which did not pre-exist, does not exist afterwards
either, contradicting the claim that all four hook names exist as links
after any declaration. -/
theorem amulet_c5_counterexample :
    (Builder.require c5builder "db" "mysql" []).2
        = some (Err.fileExists "db-relation-joined")
    ∧ alGet c5builder.hooks "db-relation-broken" = none
    ∧ alGet ((Builder.require c5builder "db" "mysql" []).1.hooks)
        "db-relation-broken" = none :=
  ⟨rfl, rfl, rfl⟩

/-- Builder used to witness C5: a clean template hooks directory. -/
def c5wbuilder : Builder :=
  { metadata := [], hook := "hooks.py", hooks := [("hooks.py", HookEntry.file)] }

/-- Witness for C5 at a concrete input. -/
theorem amulet_c5_witness :
    c5wbuilder.hook ≠ ""
    ∧ (Builder.require c5wbuilder "db" "mysql" []).2 = none
    ∧ alGet ((Builder.require c5wbuilder "db" "mysql" []).1.hooks)
        "db-relation-joined" = some (HookEntry.symlink "hooks.py") :=
  ⟨by decide, rfl,
    (amulet_c5.1 c5wbuilder "db" "mysql" [] (by decide) rfl "joined"
      (by simp [relEvents])).2 rfl⟩

/-- C8: every Builder successfully created with subordinate true holds,
with zero additional caller calls, a requires entry named juju-info whose
interface is juju-info and whose scope is container. -/
theorem amulet_c8 (te : Bool) (thooks : HooksDir) (nm hook : String) (b : Builder)
    (h : builder_init te thooks nm true hook = Except.ok b) :
    ∃ t e, alGet b.metadata "requires" = some (Val.vDict t)
      ∧ alGet t "juju-info" = some (Val.vDict e)
      ∧ alGet e "interface" = some (Val.vStr "juju-info")
      ∧ alGet e "scope" = some (Val.vStr "container") := by
  cases te with
  | false => simp [builder_init] at h
  | true =>
      simp only [builder_init] at h
      rw [if_neg (show ¬(true = false) by decide)] at h
      rw [if_pos trivial] at h
      cases hr2 : (Builder.require
          { metadata := initMetadata nm true, hook := hook, hooks := thooks }
          "juju-info" "juju-info" [("scope", Val.vStr "container")]).2 with
      | some e => simp only [hr2] at h; cases h
      | none =>
          simp only [hr2] at h
          have h1 := add_relation_table_eq
            { metadata := initMetadata nm true, hook := hook, hooks := thooks }
            "requires" "juju-info"
            (alSet [("scope", Val.vStr "container")] "interface" (Val.vStr "juju-info")) rfl
          have hb : (Builder.require
              { metadata := initMetadata nm true, hook := hook, hooks := thooks }
              "juju-info" "juju-info" [("scope", Val.vStr "container")]).1 = b := by
            split at h
            · exact Except.ok.inj h
            · split at h
              · exact Except.ok.inj h
              · cases h
          rw [← hb]
          refine ⟨_, _, h1, alGet_alSet_self _ _ _, rfl, rfl⟩

/-- The builder produced by creating a subordinate charm from a template
whose hooks directory holds only hooks.py. -/
def c8builder : Builder :=
  { metadata :=
      [("name", Val.vStr "sq"),
       ("summary", Val.vStr "Generated by Amulet"),
       ("description", Val.vStr "Generated by Amulet"),
       ("subordinate", Val.vBool true),
       ("maintainer", Val.vStr "Amulet Built <juju@lists.ubuntu.com>"),
       ("requires", Val.vDict [("juju-info",
          Val.vDict [("scope", Val.vStr "container"),
                     ("interface", Val.vStr "juju-info")])])],
    hook := "hooks.py",
    hooks :=
      [("hooks.py", HookEntry.file),
       ("juju-info-relation-joined", HookEntry.symlink "hooks.py"),
       ("juju-info-relation-changed", HookEntry.symlink "hooks.py"),
       ("juju-info-relation-departed", HookEntry.symlink "hooks.py"),
       ("juju-info-relation-broken", HookEntry.symlink "hooks.py")] }

/-- Witness for C8 at a concrete input. -/
theorem amulet_c8_witness :
    builder_init true [("hooks.py", HookEntry.file)] "sq" true "hooks.py"
        = Except.ok c8builder
    ∧ ∃ t e, alGet c8builder.metadata "requires" = some (Val.vDict t)
        ∧ alGet t "juju-info" = some (Val.vDict e)
        ∧ alGet e "interface" = some (Val.vStr "juju-info")
        ∧ alGet e "scope" = some (Val.vStr "container") :=
  ⟨rfl, amulet_c8 true [("hooks.py", HookEntry.file)] "sq" "hooks.py" c8builder rfl⟩

/-- Relation lookup result of get_relation lines 12..28:
noRelations is the raised exception for a falsy relations attribute
(NoRelationsError); lookupErr collapses the KeyError and TypeError raised on
malformed table values (a non-dict table value or entry, or an entry without
interface); notFound is the returned pair of None and None; found carries
the table name and the interface value. -/
inductive RelResult
| noRelations
| lookupErr
| notFound
| found (rel_type : String) (interface : Val)

/-- The nested loops of get_relation lines 23..26: tables are scanned in
insertion order, names inside a table likewise, and the first hit returns
the table name together with the interface field of the entry looked up by
name. Iterating a non-dict table value mirrors Python: an empty string
iterates zero characters and the scan continues, any other scalar raises. -/
def rel_search : List (String × Val) → String → RelResult
| [], _ => RelResult.notFound
| (rel_type, tv) :: rest, relation =>
    match tv with
    | Val.vDict es =>
        if es.any (fun q => q.1 == relation) then
          match alGet es relation with
          | some (Val.vDict entry) =>
              match alGet entry "interface" with
              | some i => RelResult.found rel_type i
              | none => RelResult.lookupErr
          | _ => RelResult.lookupErr
        else rel_search rest relation
    | Val.vStr s => if s.isEmpty then rel_search rest relation else RelResult.lookupErr
    | Val.vBool _ => RelResult.lookupErr

/-- get_relation, applied to the relations attribute of the already
resolved charm (the cache-or-get_charm resolution of lines 13..16 is
modeled by the resolution functions below): a falsy relations mapping
raises NoRelationsError, otherwise the tables are scanned. -/
def get_relation (relations : List (String × Val)) (relation : String) : RelResult :=
  if relations.isEmpty then RelResult.noRelations else rel_search relations relation

/-- Specification-side predicate: the table value is a mapping containing
the relation name. -/
def tableHasKey (tv : Val) (relation : String) : Bool :=
  match tv with
  | Val.vDict es => es.any (fun q => q.1 == relation)
  | _ => false

/-- Specification-side lookup: the first table containing the name, paired
with the interface field of its entry for the name. -/
def firstRelation (relations : List (String × Val)) (relation : String) :
    Option (String × Val) :=
  match relations.find? (fun p => tableHasKey p.2 relation) with
  | some (t, Val.vDict es) =>
      match alGet es relation with
      | some (Val.vDict entry) => (alGet entry "interface").map (fun i => (t, i))
      | _ => none
  | _ => none

/-- A relation entry is a mapping carrying an interface field. -/
def entryOK (q : String × Val) : Bool :=
  match q.2 with
  | Val.vDict fields => (alGet fields "interface").isSome
  | _ => false

/-- A relation table is a mapping whose entries are all well formed. -/
def tableOK (p : String × Val) : Bool :=
  match p.2 with
  | Val.vDict es => es.all entryOK
  | _ => false

/-- Every declared relation table is well formed (true of any metadata
document respecting the invariant that declarations carry an interface). -/
def relationsOK (relations : List (String × Val)) : Bool :=
  relations.all tableOK

theorem rel_search_eq (relations : List (String × Val)) (relation : String)
    (h : relationsOK relations = true) :
    rel_search relations relation =
      (match firstRelation relations relation with
       | some (t, i) => RelResult.found t i
       | none => RelResult.notFound) := by
  induction relations with
  | nil => rfl
  | cons p rest ih =>
      obtain ⟨rt, tv⟩ := p
      simp only [relationsOK, List.all_cons, Bool.and_eq_true] at h
      obtain ⟨htv, hrest⟩ := h
      cases tv with
      | vStr s => simp [tableOK] at htv
      | vBool bb => simp [tableOK] at htv
      | vDict es =>
          simp only [tableOK] at htv
          by_cases hany : es.any (fun q => q.1 == relation) = true
          · obtain ⟨v, hv, hmem⟩ := alGet_isSome_of_any es relation hany
            have hent : entryOK (relation, v) = true := List.all_eq_true.mp htv _ hmem
            cases v with
            | vStr s2 => simp [entryOK] at hent
            | vBool b2 => simp [entryOK] at hent
            | vDict fields =>
                simp only [entryOK] at hent
                obtain ⟨i, hi⟩ := Option.isSome_iff_exists.mp hent
                have hfind : ((rt, Val.vDict es) :: rest).find?
                    (fun p => tableHasKey p.2 relation) = some (rt, Val.vDict es) :=
                  List.find?_cons_of_pos _ (by simpa [tableHasKey] using hany)
                simp only [rel_search, hany, if_true, hv, hi, firstRelation, hfind]
                rfl
          · have hfind : ((rt, Val.vDict es) :: rest).find?
                (fun p => tableHasKey p.2 relation)
                  = rest.find? (fun p => tableHasKey p.2 relation) :=
              List.find?_cons_of_neg _ (by simpa [tableHasKey] using hany)
            simp only [rel_search, hany, Bool.false_eq_true, if_false, firstRelation, hfind]
            exact ih hrest

/-- C2: get_relation raises NoRelationsError exactly when the model holds
no relation tables at all; with tables present it returns the pair of None
and None when no table contains the name, and the pair of the first
containing table name and that entry interface on a match. -/
theorem amulet_c2 (relations : List (String × Val)) (relation : String)
    (h : relationsOK relations = true) :
    get_relation relations relation =
      (if relations.isEmpty then RelResult.noRelations
       else match firstRelation relations relation with
            | some (t, i) => RelResult.found t i
            | none => RelResult.notFound) := by
  unfold get_relation
  by_cases he : relations.isEmpty = true
  · simp [he]
  · simp only [Bool.not_eq_true] at he
    simp only [he, Bool.false_eq_true, if_false]
    exact rel_search_eq relations relation h

/-- Concrete relations mapping used to witness C2. -/
def c2rels : List (String × Val) :=
  [("provides", Val.vDict [("website", Val.vDict [("interface", Val.vStr "http")])]),
   ("requires", Val.vDict [])]

/-- Witness for C2 at a concrete input. -/
theorem amulet_c2_witness :
    relationsOK c2rels = true
    ∧ get_relation c2rels "website" =
        (if c2rels.isEmpty then RelResult.noRelations
         else match firstRelation c2rels "website" with
              | some (t, i) => RelResult.found t i
              | none => RelResult.notFound) :=
  ⟨rfl, amulet_c2 c2rels "website" rfl⟩

/-- os.path.expanduser: a leading tilde is replaced by the home directory;
anything else is returned unchanged. -/
def expanduser (home s : String) : String :=
  if s = "~" then home
  else if String.mk (s.data.take 2) = "~/" then home ++ String.mk (s.data.drop 1)
  else s

def basenameAux : List Char → List Char → List Char
| [], acc => acc
| c :: cs, acc => if c = '/' then basenameAux cs [] else basenameAux cs (acc ++ [c])

/-- os.path.basename: the component after the last slash. -/
def basename (p : String) : String := String.mk (basenameAux p.data [])

def endsWithSlash (s : String) : Bool := s.data.getLast? == some '/'

/-- os.path.join for two components: an absolute second component wins, an
empty or slash-terminated first component concatenates directly, otherwise a
slash is inserted. -/
def pathJoin (a b : String) : String :=
  if b.data.take 1 = ['/'] then b
  else if a = "" then b
  else if endsWithSlash a then a ++ b
  else a ++ "/" ++ b

/-- str.startswith. -/
def strStarts (pre s : String) : Bool := pre.data.isPrefixOf s.data

/-- Entry of a charm directory: a file carrying its decoded document (the
YAML codec is an external collaborator, so contents are structured values),
or a marker subdirectory such as .bzr. -/
inductive FEntry
| file (content : Val)
| dirMark

/-- A charm directory: its entries keyed by name. -/
abbrev Dir := List (String × FEntry)

/-- The filesystem: directories keyed by absolute path. Nesting is implicit
in the path strings; a recursive remove drops every path below the target. -/
abbrev FS := List (String × Dir)

/-- Resolved local charm model, LocalCharm lines 121..149: the relations
attribute built by _parse, the subordinate attribute (False unless the
document overrides it via the setattr loop), the source location (the
location field of the code_source and source attributes), and the temp_dir
attribute set only when a staging copy was made. The remaining setattr
dynamic attributes carry document values the claims never consult. -/
structure LocalCharm where
  relations : List (String × Val)
  subordinate : Val
  sourceLocation : String
  tempDir : Option String

/-- Loop body of LocalCharm._parse lines 151..157: only the keys listed in
rel_keys, which are provides and requires, are mirrored into the relations
mapping. -/
def parseStep (rels : List (String × Val)) (kv : String × Val) : List (String × Val) :=
  if ["provides", "requires"].contains kv.1 then alSet rels kv.1 kv.2 else rels

/-- LocalCharm._parse restricted to the relations attribute it builds. -/
def LocalCharm.parse (metadata : List (String × Val)) : List (String × Val) :=
  metadata.foldl parseStep []

/-- LocalCharm._make_temp_copy lines 140..149: mkdtemp creates the fresh
private directory (freshness of the supplied name is a hypothesis of the
theorems, as mkdtemp guarantees it), copytree copies the charm directory
into it under the basename of the source path, and setup_bzr adds the .bzr
tracking directory; bzr add and commit change no tracked content. -/
def LocalCharm.make_temp_copy (fs : FS) (tempD path : String) (dir : Dir) : String × FS :=
  let fs1 := alSet fs tempD []
  let temp_charm_dir := pathJoin tempD (basename path)
  (temp_charm_dir, alSet fs1 temp_charm_dir (alSet dir ".bzr" FEntry.dirMark))

/-- LocalCharm.__init__ lines 122..138: the path is expanduser-expanded
(os.path.abspath is the identity on the absolute paths used throughout);
a missing metadata.yaml raises the charm-not-found exception; a directory
not under bzr tracking is first staged through _make_temp_copy; finally the
metadata document is loaded from the resulting location and parsed, which
requires it to be a mapping. -/
def LocalCharm.init (fs : FS) (home tempD path : String) : Except Err (LocalCharm × FS) :=
  let p := expanduser home path
  match alGet fs p with
  | none => Except.error Err.notFound
  | some dir =>
    if (alGet dir "metadata.yaml").isNone then Except.error Err.notFound
    else
      let staged : String × FS × Option String :=
        if (alGet dir ".bzr").isSome then (p, fs, none)
        else
          let r := LocalCharm.make_temp_copy fs tempD p dir
          (r.1, r.2, some tempD)
      match (alGet staged.2.1 staged.1).bind (fun d => alGet d "metadata.yaml") with
      | some (FEntry.file (Val.vDict md)) =>
          Except.ok ({ relations := LocalCharm.parse md,
                       subordinate := (alGet md "subordinate").getD (Val.vBool false),
                       sourceLocation := staged.1,
                       tempDir := staged.2.2 }, staged.2.1)
      | _ => Except.error Err.parseError

/-- shutil.rmtree without ignore_errors: removing a missing directory
raises FileNotFoundError; otherwise the directory and everything below it
disappear. -/
def rmtree (fs : FS) (d : String) : Except Err FS :=
  if (alGet fs d).isSome then
    Except.ok (fs.filter (fun p => !(p.1 == d || (d ++ "/").data.isPrefixOf p.1.data)))
  else Except.error Err.fileNotFound

/-- LocalCharm.__del__ lines 171..174: the temp_dir attribute defaults to
None via getattr, a falsy value skips cleanup, otherwise shutil.rmtree runs
on the staging directory. -/
def LocalCharm.del (fs : FS) (c : LocalCharm) : Except Err FS :=
  match c.tempDir with
  | none => Except.ok fs
  | some d => if d = "" then Except.ok fs else rmtree fs d

/-- Result of get_charm: a registry lookup through the external
charmworldlib collaborator (an opaque delegation), a LaunchpadCharm reading
its metadata through the external bzr cat primitive (opaque likewise), or a
resolved local model. -/
inductive ResolvedCharm
| registry (ref : String)
| launchpad (branch : String)
| localModel (m : LocalCharm)

/-- get_charm lines 105..118: the cs scheme delegates to the registry, the
lp scheme to the Launchpad branch reader, the local scheme resolves against
the JUJU_REPOSITORY root and constructs a LocalCharm, an existing local
path constructs a LocalCharm directly, and any other reference falls
through to the registry collaborator. -/
def get_charm (fs : FS) (home juju_repository tempD : String)
    (charm_path : String) : Except Err (ResolvedCharm × FS) :=
  if strStarts "cs:" charm_path then Except.ok (ResolvedCharm.registry charm_path, fs)
  else if strStarts "lp:" charm_path then
    Except.ok (ResolvedCharm.launchpad charm_path, fs)
  else if strStarts "local:" charm_path then
    match LocalCharm.init fs home tempD
        (pathJoin juju_repository (String.mk (charm_path.data.drop 6))) with
    | Except.ok r => Except.ok (ResolvedCharm.localModel r.1, r.2)
    | Except.error e => Except.error e
  else if (alGet fs (expanduser home charm_path)).isSome then
    match LocalCharm.init fs home tempD charm_path with
    | Except.ok r => Except.ok (ResolvedCharm.localModel r.1, r.2)
    | Except.error e => Except.error e
  else Except.ok (ResolvedCharm.registry charm_path, fs)

theorem parse_fold (md : List (String × Val)) (acc : List (String × Val)) (k : String)
    (h : alNodup md = true) :
    alGet (md.foldl parseStep acc) k =
      (if ["provides", "requires"].contains k then
        (match alGet md k with
         | some v => some v
         | none => alGet acc k)
      else alGet acc k) := by
  induction md generalizing acc with
  | nil =>
      by_cases hk : (["provides", "requires"].contains k) = true <;>
        simp [hk, alGet]
  | cons kv rest ih =>
      obtain ⟨k0, v0⟩ := kv
      simp only [alNodup, Bool.and_eq_true, Bool.not_eq_true'] at h
      obtain ⟨hany, hrest⟩ := h
      simp only [List.foldl_cons]
      rw [ih (parseStep acc (k0, v0)) hrest]
      by_cases hk : (["provides", "requires"].contains k) = true
      · simp only [hk, if_true]
        by_cases h0 : k0 = k
        · subst h0
          have hnone : alGet rest k0 = none := alGet_eq_none_of_any_eq_false rest k0 hany
          rw [hnone]
          have hor : k0 = "provides" ∨ k0 = "requires" := by simpa using hk
          simp [alGet, parseStep, hor, alGet_alSet_self]
        · have hstep : alGet (parseStep acc (k0, v0)) k = alGet acc k := by
            unfold parseStep
            by_cases hc0 : (["provides", "requires"].contains k0) = true
            · simp only [hc0]
              rw [if_pos trivial]
              exact alGet_alSet_ne acc k0 k v0 (fun he => h0 he.symm)
            · have hor : ¬(k0 = "provides" ∨ k0 = "requires") := by simpa using hc0
              simp [hor]
          rw [hstep]
          simp [alGet, h0]
      · have hkf : (["provides", "requires"].contains k) = false := by
          simpa using hk
        simp only [hkf, Bool.false_eq_true, if_false]
        unfold parseStep
        by_cases hc0 : (["provides", "requires"].contains k0) = true
        · have hne : k ≠ k0 := by
            intro he
            rw [← he] at hc0
            rw [hkf] at hc0
            cases hc0
          simp only [hc0]
          rw [if_pos trivial]
          exact alGet_alSet_ne acc k0 k v0 hne
        · have hor : ¬(k0 = "provides" ∨ k0 = "requires") := by simpa using hc0
          simp [hor]

/-- C3 as amended: the relations attribute of a parsed metadata document
mirrors exactly the provides and requires tables present in the document;
every other key, in particular a peers table, is absent from it. -/
theorem amulet_c3 (md : List (String × Val)) (k : String) (h : alNodup md = true) :
    alGet (LocalCharm.parse md) k =
      (if ["provides", "requires"].contains k then alGet md k else none) := by
  unfold LocalCharm.parse
  rw [parse_fold md [] k h]
  by_cases hk : (["provides", "requires"].contains k) = true
  · simp only [hk, if_true]
    cases hmd : alGet md k <;> simp [hmd, alGet]
  · have hor : ¬(k = "provides" ∨ k = "requires") := by simpa using hk
    simp [hor, alGet]

/-- Metadata document declaring a peers table. -/
def c3md : List (String × Val) :=
  [("name", Val.vStr "ring"),
   ("peers", Val.vDict [("cluster", Val.vDict [("interface", Val.vStr "riak")])])]

/-- Filesystem holding a bzr-tracked charm directory with that document. -/
def c3fs : FS :=
  [("/repo/ring", [("metadata.yaml", FEntry.file (Val.vDict c3md)),
                   (".bzr", FEntry.dirMark)])]

/-- The model that resolving the charm above produces. -/
def c3model : LocalCharm :=
  { relations := [], subordinate := Val.vBool false,
    sourceLocation := "/repo/ring", tempDir := none }

/-- Counterexample to C3 as stated: the source document declares a peers
table, the resolution succeeds, yet the relations attribute of the resolved
model does not contain peers, because _parse mirrors only provides and
requires. -/
theorem amulet_c3_counterexample :
    LocalCharm.init c3fs "/home/u" "/tmp/c3" "/repo/ring" = Except.ok (c3model, c3fs)
    ∧ (alGet c3md "peers").isSome = true
    ∧ alGet c3model.relations "peers" = none :=
  ⟨rfl, rfl, rfl⟩

/-- Witness for the amended C3 at a concrete input. -/
theorem amulet_c3_witness :
    alNodup c3md = true
    ∧ alGet (LocalCharm.parse c3md) "peers" =
        (if ["provides", "requires"].contains "peers" then alGet c3md "peers" else none) :=
  ⟨rfl, amulet_c3 c3md "peers" rfl⟩

/-- C9: resolving a local path at which no metadata document exists fails
with the charm-not-found error (NotFoundError). -/
theorem amulet_c9 (fs : FS) (home tempD path : String)
    (h : ((alGet fs (expanduser home path)).bind (fun d => alGet d "metadata.yaml")) = none) :
    LocalCharm.init fs home tempD path = Except.error Err.notFound := by
  simp only [LocalCharm.init]
  cases hd : alGet fs (expanduser home path) with
  | none => simp [hd]
  | some dir =>
      rw [hd] at h
      simp only [Option.some_bind] at h
      simp [hd, h]

/-- Witness for C9 at a concrete input. -/
theorem amulet_c9_witness :
    ((alGet ([] : FS) (expanduser "/home/u" "/nope")).bind
        (fun d => alGet d "metadata.yaml")) = none
    ∧ LocalCharm.init ([] : FS) "/home/u" "/tmp/c9" "/nope" = Except.error Err.notFound :=
  ⟨rfl, amulet_c9 [] "/home/u" "/tmp/c9" "/nope" rfl⟩

/-- C7: resolving an existing local charm directory that holds a metadata
document but no bzr tracking stages a full copy into the fresh private
temporary location, backs the model by that staged copy (source location and
temp_dir point at it, and the staged directory holds the original content
plus checkpoint tracking), and leaves the original directory unmodified. -/
theorem amulet_c7 (fs : FS) (home tempD path : String) (dir : Dir)
    (md : List (String × Val))
    (hexp : expanduser home path = path)
    (hfs : alGet fs path = some dir)
    (hmd : alGet dir "metadata.yaml" = some (FEntry.file (Val.vDict md)))
    (hbzr : alGet dir ".bzr" = none)
    (hsep : pathJoin tempD (basename path) ≠ path)
    (htd : tempD ≠ path) :
    LocalCharm.init fs home tempD path =
      Except.ok
        ({ relations := LocalCharm.parse md,
           subordinate := (alGet md "subordinate").getD (Val.vBool false),
           sourceLocation := pathJoin tempD (basename path),
           tempDir := some tempD },
         alSet (alSet fs tempD []) (pathJoin tempD (basename path))
           (alSet dir ".bzr" FEntry.dirMark))
    ∧ alGet (alSet (alSet fs tempD []) (pathJoin tempD (basename path))
          (alSet dir ".bzr" FEntry.dirMark)) path = alGet fs path
    ∧ alGet (alSet (alSet fs tempD []) (pathJoin tempD (basename path))
          (alSet dir ".bzr" FEntry.dirMark)) (pathJoin tempD (basename path))
        = some (alSet dir ".bzr" FEntry.dirMark) := by
  refine ⟨?_, ?_, ?_⟩
  · simp only [LocalCharm.init, LocalCharm.make_temp_copy, hexp, hfs, hmd, hbzr,
      Option.isNone_some, Bool.false_eq_true, if_false, Option.isSome_none,
      alGet_alSet_self, Option.some_bind]
    rw [alGet_alSet_ne dir ".bzr" "metadata.yaml" FEntry.dirMark (by decide)]
    rw [hmd]
  · rw [alGet_alSet_ne _ _ _ _ (Ne.symm hsep), alGet_alSet_ne _ _ _ _ (Ne.symm htd)]
  · exact alGet_alSet_self _ _ _

/-- Original charm directory used to witness C7. -/
def c7md : List (String × Val) := [("name", Val.vStr "c")]

/-- Directory content of the original charm. -/
def c7dir : Dir := [("metadata.yaml", FEntry.file (Val.vDict c7md))]

/-- Filesystem holding only the original charm directory. -/
def c7fs : FS := [("/h/c", c7dir)]

/-- Witness for C7 at a concrete input. -/
theorem amulet_c7_witness :
    pathJoin "/t" (basename "/h/c") ≠ "/h/c"
    ∧ LocalCharm.init c7fs "/h" "/t" "/h/c" =
        Except.ok
          ({ relations := LocalCharm.parse c7md,
             subordinate := (alGet c7md "subordinate").getD (Val.vBool false),
             sourceLocation := pathJoin "/t" (basename "/h/c"),
             tempDir := some "/t" },
           alSet (alSet c7fs "/t" []) (pathJoin "/t" (basename "/h/c"))
             (alSet c7dir ".bzr" FEntry.dirMark))
    ∧ alGet (alSet (alSet c7fs "/t" []) (pathJoin "/t" (basename "/h/c"))
          (alSet c7dir ".bzr" FEntry.dirMark)) "/h/c" = alGet c7fs "/h/c"
    ∧ alGet (alSet (alSet c7fs "/t" []) (pathJoin "/t" (basename "/h/c"))
          (alSet c7dir ".bzr" FEntry.dirMark)) (pathJoin "/t" (basename "/h/c"))
        = some (alSet c7dir ".bzr" FEntry.dirMark) := by
  have h := amulet_c7 c7fs "/h" "/t" "/h/c" c7dir c7md rfl rfl rfl rfl
    (by decide) (by decide)
  exact ⟨by decide, h.1, h.2.1, h.2.2⟩

/-- LocalCharm whose staging directory is recorded in temp_dir. -/
def c6charm : LocalCharm :=
  { relations := [], subordinate := Val.vBool false,
    sourceLocation := "/tmp/charmQ/q", tempDir := some "/tmp/charmQ" }

/-- C6 evaluated at the failing input: the destructor does remove an
existing staging directory, but when the staging directory is already gone
shutil.rmtree, called without ignore_errors, raises FileNotFoundError, so
the cleanup is not idempotent as the claim and the spec require. -/
theorem amulet_c6_bug :
    LocalCharm.del [("/tmp/charmQ", ([] : Dir))] c6charm = Except.ok ([] : FS)
    ∧ LocalCharm.del ([] : FS) c6charm = Except.error Err.fileNotFound :=
  ⟨rfl, rfl⟩

/-- Counterexample to C4 as stated: a reference with no recognized scheme
marker and no existing local path does not fail with a resolution error;
get_charm returns the registry delegation. -/
theorem amulet_c4_counterexample :
    get_charm ([] : FS) "/home/u" "" "/tmp/c4" "no-such-charm"
      = Except.ok (ResolvedCharm.registry "no-such-charm", ([] : FS)) := rfl

/-- C4 as amended: for every reference whose prefix is none of cs, lp and
local and which names no existing local path, get_charm falls through to the
registry collaborator and returns its delegation, never failing locally. -/
theorem amulet_c4 (fs : FS) (home juju_repository tempD ref : String)
    (h1 : strStarts "cs:" ref = false) (h2 : strStarts "lp:" ref = false)
    (h3 : strStarts "local:" ref = false)
    (h4 : (alGet fs (expanduser home ref)).isSome = false) :
    get_charm fs home juju_repository tempD ref
      = Except.ok (ResolvedCharm.registry ref, fs) := by
  simp [get_charm, h1, h2, h3, h4]

/-- Witness for the amended C4 at a concrete input. -/
theorem amulet_c4_witness :
    strStarts "cs:" "mysql-charm" = false
    ∧ strStarts "lp:" "mysql-charm" = false
    ∧ strStarts "local:" "mysql-charm" = false
    ∧ (alGet ([] : FS) (expanduser "/home/u" "mysql-charm")).isSome = false
    ∧ get_charm ([] : FS) "/home/u" "/repo" "/tmp/c4w" "mysql-charm"
        = Except.ok (ResolvedCharm.registry "mysql-charm", ([] : FS)) :=
  ⟨rfl, rfl, rfl, rfl,
    amulet_c4 [] "/home/u" "/repo" "/tmp/c4w" "mysql-charm" rfl rfl rfl rfl⟩

/-- Store of Python dict objects, keyed by object identity. This refines
the value-level Builder model to express aliasing: require, provide and
peer mutate the caller-supplied options dict in place and store that same
object in the metadata table. -/
abbrev Heap := List (Nat × List (String × Val))

/-- A fresh object identity. -/
def heapFresh (h : Heap) : Nat := h.foldl (fun a p => max a p.1) 0 + 1

/-- Allocation of a new dict object. -/
def heapAlloc (h : Heap) (d : List (String × Val)) : Nat × Heap :=
  (heapFresh h, alSet h (heapFresh h) d)

/-- The relation tables of the metadata document at the reference level:
each table maps relation names to the identity of the stored options
object. -/
abbrev RelTables := List (String × List (String × Nat))

/-- Builder._add_relation lines 77..81 at the reference level: ensure the
table exists, then store the reference to the options object under the
relation name. The hook wiring of lines 83..91 touches no dict object and
is modeled in the value-level Builder. -/
def add_relation_ref (tables : RelTables) (rel_type relation : String) (r : Nat) : RelTables :=
  let t0 := if (alGet tables rel_type).isSome then tables else alSet tables rel_type []
  alSet t0 rel_type (alSet ((alGet t0 rel_type).getD []) relation r)

/-- Shared body of require, provide and peer lines 59..75 at the reference
level: a missing or empty (falsy) opts argument is replaced by a freshly
allocated dict, the interface key is written into the dict object in place,
and the same object reference is handed to _add_relation. -/
def decl_ref (tbl : String) (h : Heap) (tables : RelTables)
    (relation interface : String) (opts : Option Nat) : Heap × RelTables × Nat :=
  let ra : Nat × Heap :=
    match opts with
    | none => heapAlloc h []
    | some r =>
        match alGet h r with
        | some [] => heapAlloc h []
        | _ => (r, h)
  let h2 := alSet ra.2 ra.1
    (alSet ((alGet ra.2 ra.1).getD []) "interface" (Val.vStr interface))
  (h2, add_relation_ref tables tbl relation ra.1, ra.1)

/-- Builder.require at the reference level. -/
def require_ref (h : Heap) (tables : RelTables) (relation interface : String)
    (opts : Option Nat) : Heap × RelTables × Nat :=
  decl_ref "requires" h tables relation interface opts

/-- Builder.provide at the reference level. -/
def provide_ref (h : Heap) (tables : RelTables) (relation interface : String)
    (opts : Option Nat) : Heap × RelTables × Nat :=
  decl_ref "provides" h tables relation interface opts

/-- Builder.peer at the reference level. -/
def peer_ref (h : Heap) (tables : RelTables) (relation interface : String)
    (opts : Option Nat) : Heap × RelTables × Nat :=
  decl_ref "peers" h tables relation interface opts

theorem add_relation_ref_get (tables : RelTables) (tbl relation : String) (r : Nat) :
    (alGet (add_relation_ref tables tbl relation r) tbl).bind
      (fun t => alGet t relation) = some r := by
  unfold add_relation_ref
  by_cases hs : (alGet tables tbl).isSome = true
  · simp only [hs, if_true, alGet_alSet_self, Option.some_bind]
  · simp only [hs, Bool.false_eq_true, if_false, alGet_alSet_self, Option.some_bind,
      Option.getD_some]

/-- C10, one declaration operation at the reference level: a caller-supplied
non-empty options dict keeps its identity, its interface key is written in
place, the metadata table stores that very object, and a later external
rebinding of the object is visible when the table entry is read back through
the store. -/
def aliasSpec (f : Heap → RelTables → String → String → Option Nat → Heap × RelTables × Nat)
    (tbl : String) : Prop :=
  ∀ (h : Heap) (tables : RelTables) (relation interface : String) (r : Nat)
    (d : List (String × Val)),
    alGet h r = some d → d ≠ [] →
    (f h tables relation interface (some r)).2.2 = r
    ∧ alGet (f h tables relation interface (some r)).1 r
        = some (alSet d "interface" (Val.vStr interface))
    ∧ ((alGet (f h tables relation interface (some r)).2.1 tbl).bind
          (fun t => alGet t relation)) = some r
    ∧ ∀ d2, ((alGet (f h tables relation interface (some r)).2.1 tbl).bind
          (fun t => alGet t relation)).bind
            (fun r2 => alGet (alSet (f h tables relation interface (some r)).1 r d2) r2)
          = some d2

theorem aliasSpec_decl_ref (tbl : String) : aliasSpec (decl_ref tbl) tbl := by
  intro h tables relation interface r d hget hne
  cases d with
  | nil => exact absurd rfl hne
  | cons p tl =>
      refine ⟨?_, ?_, ?_, ?_⟩
      · simp [decl_ref, hget]
      · simp only [decl_ref, hget, Option.getD_some]
        exact alGet_alSet_self _ _ _
      · simp only [decl_ref, hget]
        exact add_relation_ref_get tables tbl relation r
      · intro d2
        simp only [decl_ref, hget, Option.getD_some]
        rw [add_relation_ref_get tables tbl relation r]
        simp only [Option.some_bind]
        exact alGet_alSet_self _ _ _

/-- C10: require, provide and peer mutate a caller-supplied non-empty
options dict in place by setting its interface key, store that same object
(not a copy) in the requires, provides or peers table respectively, and a
later external mutation of the object is visible through the stored table
entry. -/
theorem amulet_c10 :
    aliasSpec require_ref "requires"
      ∧ aliasSpec provide_ref "provides"
      ∧ aliasSpec peer_ref "peers" :=
  ⟨aliasSpec_decl_ref "requires", aliasSpec_decl_ref "provides",
    aliasSpec_decl_ref "peers"⟩

/-- Concrete store used to witness C10: one dict object at identity 5. -/
def c10heap : Heap := [(5, [("limit", Val.vStr "1")])]

/-- Witness for C10 at a concrete input, with the external rebinding
instantiated as well. -/
theorem amulet_c10_witness :
    alGet c10heap 5 = some [("limit", Val.vStr "1")]
    ∧ ([("limit", Val.vStr "1")] : List (String × Val)) ≠ []
    ∧ (require_ref c10heap [] "db" "mysql" (some 5)).2.2 = 5
    ∧ alGet (require_ref c10heap [] "db" "mysql" (some 5)).1 5
        = some (alSet [("limit", Val.vStr "1")] "interface" (Val.vStr "mysql"))
    ∧ ((alGet (require_ref c10heap [] "db" "mysql" (some 5)).2.1 "requires").bind
          (fun t => alGet t "db")) = some 5
    ∧ ((alGet (require_ref c10heap [] "db" "mysql" (some 5)).2.1 "requires").bind
          (fun t => alGet t "db")).bind
            (fun r2 => alGet (alSet (require_ref c10heap [] "db" "mysql" (some 5)).1 5
              [("rebound", Val.vStr "later")]) r2)
          = some [("rebound", Val.vStr "later")] := by
  have h := amulet_c10.1 c10heap [] "db" "mysql" 5 [("limit", Val.vStr "1")] rfl
    (List.cons_ne_nil _ _)
  exact ⟨rfl, List.cons_ne_nil _ _, h.1, h.2.1, h.2.2.1,
    h.2.2.2 [("rebound", Val.vStr "later")]⟩
